import Mathlib

/-!
Verification development for the ghost_tunnel point-to-point encrypted
IP-over-UDP tunnel (Rust sources: src/main.rs, src/crypto.rs,
src/protocol.rs, src/obfuscation.rs).

Shallow embedding conventions:
* bytes are naturals (values below 256 where the source produces them);
* machine integers (u64 sequence numbers) are naturals, reduced mod 2^64
  exactly where the source wraps (AtomicU64 fetch_add);
* monotonic instants are naturals counting milliseconds; the saturating
  tokio Instant.duration_since is truncated Nat subtraction;
* randomness (AEAD nonces, decoy lengths, decoy entropy) is passed in as
  explicit parameters;
* fallible Rust functions returning anyhow Result are embedded as Except.
-/

namespace GhostTunnel

/-- Little-endian byte encoding of a natural, w bytes wide (Rust to_le_bytes
as used by bincode for u64 and u32 fields). -/
def leBytes (w : Nat) (n : Nat) : List Nat :=
  (List.range w).map (fun i => n / 256 ^ i % 256)

/-- Little-endian value of a byte list (inverse of leBytes on w bytes). -/
def leVal (bs : List Nat) : Nat :=
  bs.foldr (fun b acc => acc * 256 + b) 0

/-- Big-endian byte encoding of a u16 (Rust u16::to_be_bytes), used by the
decoy generator for the declared TLS record length. -/
def beBytes2 (n : Nat) : List Nat :=
  [n / 256 % 256, n % 256]

/-- Frame kinds of the wire protocol (src/protocol.rs, enum FrameType). -/
inductive FrameType where
  | Transport
  | Heartbeat
  | Handshake
  | Ack
deriving DecidableEq, Repr

/-- Bincode tag of a FrameType variant (bincode legacy config serializes an
enum variant as its u32 index, in declaration order). -/
def FrameType.tag : FrameType → Nat
  | .Transport => 0
  | .Heartbeat => 1
  | .Handshake => 2
  | .Ack => 3

/-- Frame header (src/protocol.rs, struct FrameHeader): sequence number,
acknowledged sequence number, frame kind. Both counters are u64. -/
structure FrameHeader where
  seq : Nat
  ack_num : Nat
  frame_type : FrameType
deriving DecidableEq, Repr

/-- Wire frame (src/protocol.rs, struct WireFrame): header plus payload. -/
structure WireFrame where
  header : FrameHeader
  payload : List Nat
deriving DecidableEq, Repr

/-- Constructor for a Transport frame (src/protocol.rs, WireFrame::new_data):
ack_num is zero because piggybacking is not implemented. -/
def WireFrame.new_data (seq : Nat) (payload : List Nat) : WireFrame :=
  ⟨⟨seq, 0, FrameType.Transport⟩, payload⟩

/-- Constructor for an Ack frame (src/protocol.rs, WireFrame::new_ack):
empty payload. -/
def WireFrame.new_ack (seq : Nat) (ack_num : Nat) : WireFrame :=
  ⟨⟨seq, ack_num, FrameType.Ack⟩, []⟩

/-- Bincode serialization of a WireFrame (bincode::serialize with the legacy
configuration used by the free function: fixed-width little-endian integers,
u32 enum tag, u64 length prefix for Vec of u8). -/
def serializeFrame (f : WireFrame) : List Nat :=
  leBytes 8 f.header.seq ++ leBytes 8 f.header.ack_num ++
    leBytes 4 f.header.frame_type.tag ++ leBytes 8 f.payload.length ++ f.payload

/-- Read a w-byte little-endian integer from the front of a buffer, returning
the value and the rest; fails when fewer than w bytes remain. -/
def readLE (w : Nat) (bs : List Nat) : Option (Nat × List Nat) :=
  if w ≤ bs.length then some (leVal (bs.take w), bs.drop w) else none

/-- Decode a bincode u32 enum tag into a FrameType; an out-of-range tag is a
deserialization error. -/
def frameTypeOfTag : Nat → Option FrameType
  | 0 => some FrameType.Transport
  | 1 => some FrameType.Heartbeat
  | 2 => some FrameType.Handshake
  | 3 => some FrameType.Ack
  | _ => none

/-- Bincode deserialization of a WireFrame (bincode::deserialize on the
received datagram slice; the legacy configuration tolerates trailing bytes,
fails on truncated input or an unknown enum tag). -/
def deserializeFrame (bs : List Nat) : Option WireFrame := do
  let (seq, r1) ← readLE 8 bs
  let (ack, r2) ← readLE 8 r1
  let (tag, r3) ← readLE 4 r2
  let ft ← frameTypeOfTag tag
  let (len, r4) ← readLE 8 r3
  if len ≤ r4.length then some ⟨⟨seq, ack, ft⟩, r4.take len⟩ else none

/-- Error kinds of the crypto wrapper (src/crypto.rs): the explicit length
check in decrypt versus a failure reported by the AEAD primitive. The source
carries anyhow messages; only the kind matters here. -/
inductive CryptoError where
  | lengthError (n : Nat)
  | encryptFailure
  | decryptFailure
deriving DecidableEq, Repr

/-- Model of the external chacha20poly1305 crate primitive used by
SessionGuard. The crate is an external collaborator (not repository code);
it is embedded as an abstract keyed cipher carrying its documented AEAD
contract: decryption under the same key and nonce inverts encryption.
Arguments of enc and dec: key, nonce, message/ciphertext. -/
structure AeadPrimitive where
  enc : List Nat → List Nat → List Nat → Except Unit (List Nat)
  dec : List Nat → List Nat → List Nat → Except Unit (List Nat)
  dec_enc : ∀ k n m ct, enc k n m = Except.ok ct → dec k n ct = Except.ok m

/-- Session security context (src/crypto.rs, struct SessionGuard): the cipher
primitive together with the 32-byte pre-shared key fixed at construction. -/
structure SessionGuard where
  prim : AeadPrimitive
  key : List Nat

/-- Nonce generation (ChaCha20Poly1305::generate_nonce drawing from OsRng):
always exactly 12 bytes; the entropy source is an explicit parameter. -/
def genNonce (entropy : Nat → Nat) : List Nat :=
  (List.range 12).map entropy

/-- Encryption into a wire-ready packet (src/crypto.rs, SessionGuard::encrypt):
draws a fresh 12-byte nonce, computes ciphertext plus tag via the primitive,
returns nonce ++ ciphertext. Fails only when the primitive fails. -/
def SessionGuard.encrypt (g : SessionGuard) (entropy : Nat → Nat)
    (data : List Nat) : Except CryptoError (List Nat) :=
  match g.prim.enc g.key (genNonce entropy) data with
  | Except.error _ => Except.error CryptoError.encryptFailure
  | Except.ok ct => Except.ok (genNonce entropy ++ ct)

/-- Decryption of a wire packet (src/crypto.rs, SessionGuard::decrypt): inputs
shorter than 12 bytes fail with a length error; otherwise the leading 12 bytes
are split off as the nonce and the remainder is handed to the primitive. -/
def SessionGuard.decrypt (g : SessionGuard) (data : List Nat) :
    Except CryptoError (List Nat) :=
  if data.length < 12 then
    Except.error (CryptoError.lengthError data.length)
  else
    match g.prim.dec g.key (data.take 12) (data.drop 12) with
    | Except.error _ => Except.error CryptoError.decryptFailure
    | Except.ok m => Except.ok m

/-- Sliding-window bound on in-flight packets (src/main.rs, WINDOW_SIZE). -/
def WINDOW_SIZE : Nat := 50

/-- Retransmission timeout in milliseconds (src/main.rs, RTO). -/
def RTO : Nat := 200

/-- Pending-packet entry of the reliability ledger (src/main.rs, the HashMap
value (Instant, Vec of u8)): send instant in milliseconds plus the encoded
frame bytes. -/
structure Entry where
  sent_at : Nat
  encoded : List Nat
deriving DecidableEq, Repr

/-- Reliability ledger, the HashMap from u64 sequence numbers to pending
entries (src/main.rs, type PendingPackets), embedded as an association list
whose operations keep keys unique. -/
abbrev Ledger : Type := List (Nat × Entry)

/-- Lookup in the ledger (HashMap::get semantics). -/
def ledgerGet : Ledger → Nat → Option Entry
  | [], _ => none
  | p :: t, k => if p.1 = k then some p.2 else ledgerGet t k

/-- Removal from the ledger (HashMap::remove semantics; removing an absent
key leaves the map unchanged). -/
def eraseKey : Ledger → Nat → Ledger
  | [], _ => []
  | p :: t, k => if p.1 = k then eraseKey t k else p :: eraseKey t k

/-- Insertion into the ledger (HashMap::insert semantics; an existing binding
of the key is replaced). -/
def ledgerInsert (l : Ledger) (k : Nat) (v : Entry) : Ledger :=
  (k, v) :: eraseKey l k

/-- Number of entries of the ledger (HashMap::len). -/
def ledgerSize (l : Ledger) : Nat :=
  List.length l

/-- Shared mutable state of the three datapath activities (src/main.rs, main):
the reliability ledger, the active peer cell (socket addresses are abstracted
to naturals), the TX sequence counter (AtomicU64 starting at 1), and txGate,
the program-counter flag recording that the TX loop has passed the window
gate of the current iteration and not yet finished the iteration. -/
structure DPState where
  ledger : Ledger
  peer : Option Nat
  tx_seq : Nat
  txGate : Bool
deriving DecidableEq, Repr

/-- State at datapath bring-up (src/main.rs, main): empty ledger, the peer
cell holding the optional initial CLI peer, sequence counter at 1. -/
def initState (peer0 : Option Nat) : DPState :=
  ⟨[], peer0, 1, false⟩

/-- Result of one read from the tap device in the TX loop (src/main.rs):
a packet of n bytes with n positive, the zero-length EOF read, or an
I/O error. -/
inductive TapRead where
  | packet (p : List Nat)
  | eof
  | ioErr
deriving DecidableEq, Repr

/-- Outcome of one body of the TX loop after the window gate (src/main.rs,
TX task): proceed to the next iteration with a new state and the datagrams
handed to the socket, terminate the task (break), or panic. -/
inductive TxOutcome where
  | next (st : DPState) (sent : List (List Nat × Nat))
  | exit (st : DPState)
  | panic
deriving DecidableEq, Repr

/-- Compressed form of an outbound packet (src/main.rs, TX task):
adaptive_compress(ip_packet).unwrap_or(ip_packet.to_vec()), so a compression
error substitutes the original bytes. The compressor itself lives in
src/compression.rs, declared in main.rs but not present under src; per the
spec it is an opaque fallible transform, passed here as a parameter. -/
def txProcessed (compress : List Nat → Except Unit (List Nat))
    (p : List Nat) : List Nat :=
  match compress p with
  | Except.ok c => c
  | Except.error _ => p

/-- One body of the TX loop once the window gate has been passed
(src/main.rs, TX task): read the tap; on EOF or read error the task breaks;
with the peer unset the packet is discarded; otherwise the packet is
compressed, sealed (the Result of encrypt is unwrapped, so a seal error
panics), framed with the next sequence number, encoded, inserted into the
ledger, and handed to the socket. A UDP send error only logs, so the
returned state does not depend on the send result. The jitter sleep only
delays; now is the instant taken at the ledger insert. -/
def txIteration (g : SessionGuard) (compress : List Nat → Except Unit (List Nat))
    (entropy : Nat → Nat) (now : Nat) (st : DPState) (tap : TapRead) :
    TxOutcome :=
  match tap with
  | TapRead.eof => TxOutcome.exit {st with txGate := false}
  | TapRead.ioErr => TxOutcome.exit {st with txGate := false}
  | TapRead.packet p =>
    match st.peer with
    | none => TxOutcome.next {st with txGate := false} []
    | some addr =>
      match g.encrypt entropy (txProcessed compress p) with
      | Except.error _ => TxOutcome.panic
      | Except.ok sealed =>
        let seq := st.tx_seq
        let encoded := serializeFrame (WireFrame.new_data seq sealed)
        TxOutcome.next
          {st with
            ledger := ledgerInsert st.ledger seq ⟨now, encoded⟩,
            tx_seq := (st.tx_seq + 1) % 18446744073709551616,
            txGate := false}
          [(encoded, addr)]

/-- Output of processing one received datagram in the RX loop (src/main.rs,
RX task): the successor state, the datagrams handed to the socket (the Ack
emission; its send result is ignored), and the buffers written to the tap. -/
structure RxOutput where
  state : DPState
  sends : List (List Nat × Nat)
  tapWrites : List (List Nat)
deriving DecidableEq, Repr

/-- Dispatch of a successfully decoded frame in the RX loop (src/main.rs,
RX task, match on frame.header.frame_type). Transport: an Ack for the seq
of the frame is serialized and sent to src with the send result ignored,
then the payload is decrypted and decompressed, each failure dropping the
frame silently, and the plaintext is written to the tap (the write result
only gates a telemetry event). Ack: the acknowledged key is removed from
the ledger. Heartbeat and Handshake are ignored. The decompressor lives in
src/compression.rs, not present under src; modelled from the spec as an
opaque fallible transform passed as the dcmp parameter. -/
def dispatchFrame (g : SessionGuard) (dcmp : List Nat → Except Unit (List Nat))
    (st : DPState) (f : WireFrame) (src : Nat) : RxOutput :=
  match f.header.frame_type with
  | FrameType.Transport =>
    let ackBytes := serializeFrame (WireFrame.new_ack 0 f.header.seq)
    match g.decrypt f.payload with
    | Except.error _ => ⟨st, [(ackBytes, src)], []⟩
    | Except.ok plain =>
      match dcmp plain with
      | Except.error _ => ⟨st, [(ackBytes, src)], []⟩
      | Except.ok decompressed => ⟨st, [(ackBytes, src)], [decompressed]⟩
  | FrameType.Ack =>
    ⟨{st with ledger := eraseKey st.ledger f.header.ack_num}, [], []⟩
  | FrameType.Heartbeat => ⟨st, [], []⟩
  | FrameType.Handshake => ⟨st, [], []⟩

/-- Processing of one received datagram (src/main.rs, RX task, Ok arm of
recv_from): first the peer cell roams to the source address (the condition
in the source only gates the log line; the cell always ends up holding src),
then the datagram is deserialized, a failure dropping it silently, and the
decoded frame is dispatched. -/
def rxStep (g : SessionGuard) (dcmp : List Nat → Except Unit (List Nat))
    (st : DPState) (buf : List Nat) (src : Nat) : RxOutput :=
  let st1 := if st.peer = some src then st else {st with peer := some src}
  match deserializeFrame buf with
  | none => ⟨st1, [], []⟩
  | some f => dispatchFrame g dcmp st1 f src

/-- Keys of the ledger whose entries have aged past the retransmission
timeout, paired with their encoded bytes (src/main.rs, retransmission task,
the collection loop under the lock). tokio Instant duration_since saturates,
hence truncated subtraction. -/
def sweepCollect (now : Nat) (l : Ledger) : List (Nat × List Nat) :=
  List.filterMap
    (fun p => if RTO < now - p.2.sent_at then some (p.1, p.2.encoded) else none) l

/-- Refresh of the send instant of one ledger key (src/main.rs,
retransmission task: get_mut on the key and overwrite of the instant; an
absent key, removed meanwhile by an Ack, is left alone). -/
def refreshEntry : Ledger → Nat → Nat → Ledger
  | [], _, _ => []
  | p :: rest, k, t =>
    (if p.1 = k then (p.1, ⟨t, p.2.encoded⟩) else p) :: refreshEntry rest k t

/-- Effect on the ledger of resending the collected entries (src/main.rs,
retransmission task, the send loop): a successful send refreshes the instant
of that key to the moment after the send (rnow, indexed per key), a failed
send leaves the entry untouched so the next tick retries. -/
def sweepApply (rnow : Nat → Nat) (sendOk : Nat → Bool) (l : Ledger)
    (collected : List (Nat × List Nat)) : Ledger :=
  List.foldl
    (fun acc p => if sendOk p.1 then refreshEntry acc p.1 (rnow p.1) else acc)
    l collected

/-- One tick of the retransmission task (src/main.rs): collect the aged
entries under the lock, release, snapshot the peer; when there is something
to resend and a peer is known, send each collected frame and refresh the
instants of the successful ones. Returns the successor state and the list
of resent (seq, bytes) pairs. -/
def rtxSweep (now : Nat) (rnow : Nat → Nat) (sendOk : Nat → Bool)
    (st : DPState) : DPState × List (Nat × List Nat) :=
  let collected := sweepCollect now st.ledger
  if collected.isEmpty then (st, [])
  else
    match st.peer with
    | none => (st, [])
    | some _ =>
      ({st with ledger := sweepApply rnow sendOk st.ledger collected}, collected)

/-- Interleaved small-step relation of the three datapath activities
(src/main.rs): the TX window gate observing a non-full ledger, the TX gate
observing a full ledger and sleeping, one TX loop body (only when it
continues or exits; a panic has no successor state), one RX datagram, one
RX receive error (log and sleep), and one retransmission tick. The tap
input, datagram bytes, source address, instants, nonce entropy and send
results are free parameters of each step. -/
inductive Step (g : SessionGuard)
    (compress dcmp : List Nat → Except Unit (List Nat)) :
    DPState → DPState → Prop where
  | gatePass (st : DPState) (h : ledgerSize st.ledger < WINDOW_SIZE) :
      Step g compress dcmp st {st with txGate := true}
  | gateFull (st : DPState) (h : WINDOW_SIZE ≤ ledgerSize st.ledger) :
      Step g compress dcmp st st
  | txBody (st st' : DPState) (entropy : Nat → Nat) (now : Nat)
      (tap : TapRead) (sent : List (List Nat × Nat))
      (hg : st.txGate = true)
      (h : txIteration g compress entropy now st tap = TxOutcome.next st' sent) :
      Step g compress dcmp st st'
  | txEnd (st st' : DPState) (entropy : Nat → Nat) (now : Nat)
      (tap : TapRead) (hg : st.txGate = true)
      (h : txIteration g compress entropy now st tap = TxOutcome.exit st') :
      Step g compress dcmp st st'
  | rx (st : DPState) (buf : List Nat) (src : Nat) :
      Step g compress dcmp st (rxStep g dcmp st buf src).state
  | rxErr (st : DPState) : Step g compress dcmp st st
  | rtx (st : DPState) (now : Nat) (rnow : Nat → Nat) (sendOk : Nat → Bool) :
      Step g compress dcmp st (rtxSweep now rnow sendOk st).1

/-- Reachability of a datapath state from bring-up with an optional initial
CLI peer, under any interleaving of the three activities. -/
def Reachable (g : SessionGuard)
    (compress dcmp : List Nat → Except Unit (List Nat))
    (peer0 : Option Nat) (st : DPState) : Prop :=
  Relation.ReflTransGen (Step g compress dcmp) (initState peer0) st

/-- Decoy generator (src/obfuscation.rs, mimic_tls_client_hello): the fixed
TLS record prefix 0x16 0x03 0x01, then the declared length as a big-endian
u16, then the random padding. The length is drawn by rng.gen_range(85..300)
and the padding fills a vector of exactly len bytes; both random draws are
passed in as parameters. -/
def mimic_tls_client_hello (len : Nat) (entropy : List Nat) : List Nat :=
  [0x16, 0x03, 0x01] ++ beBytes2 len ++ entropy

/-- Identity instance of the AEAD primitive contract, used to instantiate
theorems at concrete inputs. -/
def idPrim : AeadPrimitive where
  enc := fun _ _ m => Except.ok m
  dec := fun _ _ c => Except.ok c
  dec_enc := by
    intro k n m ct h
    cases h
    rfl

/-- Always-failing instance of the AEAD primitive contract, exhibiting the
catastrophic crypto-library error the spec allows for seal. -/
def failPrim : AeadPrimitive where
  enc := fun _ _ _ => Except.error ()
  dec := fun _ _ _ => Except.error ()
  dec_enc := by
    intro k n m ct h
    cases h

/-- Session context over the identity primitive and the all-zero key. -/
def idGuard : SessionGuard :=
  ⟨idPrim, List.replicate 32 0⟩

/-- Session context over the failing primitive and the all-zero key. -/
def failGuard : SessionGuard :=
  ⟨failPrim, List.replicate 32 0⟩

/-- Identity transform standing in for the opaque compressor or
decompressor at concrete instantiations. -/
def idTransform : List Nat → Except Unit (List Nat) :=
  fun b => Except.ok b

/-- Looking up the removed key after a removal yields nothing. -/
theorem ledgerGet_eraseKey_self (l : Ledger) (a : Nat) :
    ledgerGet (eraseKey l a) a = none := by
  induction l with
  | nil => rfl
  | cons p t ih =>
    by_cases hp : p.1 = a
    · simpa [eraseKey, hp] using ih
    · simpa [eraseKey, ledgerGet, hp] using ih

/-- Removal leaves the binding of every other key unchanged. -/
theorem ledgerGet_eraseKey_ne (l : Ledger) (a k : Nat) (h : k ≠ a) :
    ledgerGet (eraseKey l a) k = ledgerGet l k := by
  induction l with
  | nil => rfl
  | cons p t ih =>
    by_cases hp : p.1 = a
    · have hak : ¬ a = k := fun hc => h hc.symm
      simpa [eraseKey, ledgerGet, hp, hak] using ih
    · by_cases hk : p.1 = k
      · simp [eraseKey, ledgerGet, hp, hk, h]
      · simpa [eraseKey, ledgerGet, hp, hk, h] using ih

/-- Removing an absent key is a no-op on the ledger. -/
theorem eraseKey_of_get_none (l : Ledger) (a : Nat)
    (h : ledgerGet l a = none) : eraseKey l a = l := by
  induction l with
  | nil => rfl
  | cons p t ih =>
    by_cases hp : p.1 = a
    · simp [ledgerGet, hp] at h
    · have ht : ledgerGet t a = none := by
        simpa [ledgerGet, hp] using h
      simp [eraseKey, hp]
      exact ih ht

/-- Removal never grows the ledger. -/
theorem length_eraseKey_le (l : Ledger) (a : Nat) :
    ledgerSize (eraseKey l a) ≤ ledgerSize l := by
  induction l with
  | nil => exact Nat.le_refl 0
  | cons p t ih =>
    by_cases hp : p.1 = a
    · simp [eraseKey, ledgerSize, hp] at ih ⊢
      exact Nat.le_succ_of_le ih
    · simpa [eraseKey, ledgerSize, hp] using ih

/-- Refreshing an instant preserves the number of entries. -/
theorem length_refreshEntry (l : Ledger) (k t : Nat) :
    ledgerSize (refreshEntry l k t) = ledgerSize l := by
  induction l with
  | nil => rfl
  | cons p rest ih => simpa [refreshEntry, ledgerSize] using ih

/-- The retransmission sweep preserves the number of entries. -/
theorem length_sweepApply (rnow : Nat → Nat) (sendOk : Nat → Bool)
    (l : Ledger) (coll : List (Nat × List Nat)) :
    ledgerSize (sweepApply rnow sendOk l coll) = ledgerSize l := by
  induction coll generalizing l with
  | nil => rfl
  | cons p rest ih =>
    by_cases hs : sendOk p.1
    · simpa [sweepApply, List.foldl_cons, hs, length_refreshEntry]
        using ih (refreshEntry l p.1 (rnow p.1))
    · simpa [sweepApply, List.foldl_cons, hs] using ih l

/-- Pointwise description of a refresh: the refreshed key maps to the same
bytes with the new instant, every other key is untouched. -/
theorem ledgerGet_refreshEntry (l : Ledger) (k t j : Nat) :
    ledgerGet (refreshEntry l k t) j =
      if j = k then (ledgerGet l j).map (fun e => ⟨t, e.encoded⟩)
      else ledgerGet l j := by
  induction l with
  | nil => simp [refreshEntry, ledgerGet]
  | cons p rest ih =>
    by_cases hp : p.1 = k
    · by_cases hj : j = k
      · simp [refreshEntry, ledgerGet, hp, hj, hp.trans hj.symm]
      · have hpj : ¬ p.1 = j := by
          intro hc
          exact hj (by rw [← hc, hp])
        have hkj : ¬ k = j := fun hc => hj hc.symm
        simpa [refreshEntry, ledgerGet, hp, hj, hpj, hkj] using ih
    · by_cases hpj : p.1 = j
      · have hj : ¬ j = k := by
          intro hc
          exact hp (by rw [hpj, hc])
        simp [refreshEntry, ledgerGet, hp, hpj, hj]
      · simpa [refreshEntry, ledgerGet, hp, hpj] using ih

/-- Refreshing twice to the same instant equals refreshing once. -/
theorem refresh_map_idem (o : Option Entry) (t : Nat) :
    Option.map (fun e => (⟨t, e.encoded⟩ : Entry))
        (Option.map (fun e => (⟨t, e.encoded⟩ : Entry)) o) =
      Option.map (fun e => (⟨t, e.encoded⟩ : Entry)) o := by
  cases o <;> rfl

/-- Keys whose send never succeeds are untouched by the sweep. -/
theorem ledgerGet_sweepApply_sendFail (rnow : Nat → Nat) (sendOk : Nat → Bool)
    (coll : List (Nat × List Nat)) (l : Ledger) (k : Nat)
    (hs : sendOk k = false) :
    ledgerGet (sweepApply rnow sendOk l coll) k = ledgerGet l k := by
  induction coll generalizing l with
  | nil => rfl
  | cons p rest ih =>
    by_cases hsp : sendOk p.1 = true
    · have hpk : ¬ k = p.1 := by
        intro hc
        rw [hc, hsp] at hs
        cases hs
      have h1 : ledgerGet (refreshEntry l p.1 (rnow p.1)) k = ledgerGet l k := by
        rw [ledgerGet_refreshEntry]
        simp [hpk]
      calc ledgerGet (sweepApply rnow sendOk l (p :: rest)) k
          = ledgerGet (sweepApply rnow sendOk (refreshEntry l p.1 (rnow p.1)) rest) k := by
            simp [sweepApply, hsp]
        _ = ledgerGet (refreshEntry l p.1 (rnow p.1)) k := ih _
        _ = ledgerGet l k := h1
    · calc ledgerGet (sweepApply rnow sendOk l (p :: rest)) k
          = ledgerGet (sweepApply rnow sendOk l rest) k := by
            simp [sweepApply, hsp]
        _ = ledgerGet l k := ih l

/-- Keys outside the collected set are untouched by the sweep. -/
theorem ledgerGet_sweepApply_notMem (rnow : Nat → Nat) (sendOk : Nat → Bool)
    (coll : List (Nat × List Nat)) (l : Ledger) (k : Nat)
    (hm : coll.any (fun p => p.1 == k) = false) :
    ledgerGet (sweepApply rnow sendOk l coll) k = ledgerGet l k := by
  induction coll generalizing l with
  | nil => rfl
  | cons p rest ih =>
    have hm1 : (p.1 == k) = false := by
      by_contra hc
      simp [List.any_cons] at hm
      exact absurd (beq_iff_eq.mp (by revert hc; cases p.1 == k <;> simp)) hm.1
    have hrest : rest.any (fun p => p.1 == k) = false := by
      simp [List.any_cons] at hm
      simpa using hm.2
    have hpk : ¬ k = p.1 := by
      intro hc
      rw [hc] at hm1
      simp at hm1
    by_cases hsp : sendOk p.1 = true
    · have h1 : ledgerGet (refreshEntry l p.1 (rnow p.1)) k = ledgerGet l k := by
        rw [ledgerGet_refreshEntry]
        simp [hpk]
      calc ledgerGet (sweepApply rnow sendOk l (p :: rest)) k
          = ledgerGet (sweepApply rnow sendOk (refreshEntry l p.1 (rnow p.1)) rest) k := by
            simp [sweepApply, hsp]
        _ = ledgerGet (refreshEntry l p.1 (rnow p.1)) k := ih _ hrest
        _ = ledgerGet l k := h1
    · calc ledgerGet (sweepApply rnow sendOk l (p :: rest)) k
          = ledgerGet (sweepApply rnow sendOk l rest) k := by
            simp [sweepApply, hsp]
        _ = ledgerGet l k := ih l hrest

/-- Collected keys whose send succeeds have their instant refreshed, their
bytes kept. -/
theorem ledgerGet_sweepApply_refreshed (rnow : Nat → Nat) (sendOk : Nat → Bool)
    (coll : List (Nat × List Nat)) (l : Ledger) (k : Nat)
    (hs : sendOk k = true) (hm : coll.any (fun p => p.1 == k) = true) :
    ledgerGet (sweepApply rnow sendOk l coll) k =
      (ledgerGet l k).map (fun e => ⟨rnow k, e.encoded⟩) := by
  induction coll generalizing l with
  | nil => cases hm
  | cons p rest ih =>
    by_cases hpk : p.1 = k
    · have hsp : sendOk p.1 = true := by rw [hpk]; exact hs
      have h1 : ledgerGet (refreshEntry l p.1 (rnow p.1)) k =
          (ledgerGet l k).map (fun e => ⟨rnow k, e.encoded⟩) := by
        rw [ledgerGet_refreshEntry]
        simp [hpk]
      by_cases hrest : rest.any (fun p => p.1 == k) = true
      · calc ledgerGet (sweepApply rnow sendOk l (p :: rest)) k
            = ledgerGet (sweepApply rnow sendOk (refreshEntry l p.1 (rnow p.1)) rest) k := by
              simp [sweepApply, hsp]
          _ = (ledgerGet (refreshEntry l p.1 (rnow p.1)) k).map
                (fun e => ⟨rnow k, e.encoded⟩) := ih _ hrest
          _ = (ledgerGet l k).map (fun e => ⟨rnow k, e.encoded⟩) := by
              rw [h1, refresh_map_idem]
      · have hrest0 : rest.any (fun p => p.1 == k) = false := by
          revert hrest
          cases rest.any (fun p => p.1 == k) <;> simp
        calc ledgerGet (sweepApply rnow sendOk l (p :: rest)) k
            = ledgerGet (sweepApply rnow sendOk (refreshEntry l p.1 (rnow p.1)) rest) k := by
              simp [sweepApply, hsp]
          _ = ledgerGet (refreshEntry l p.1 (rnow p.1)) k :=
              ledgerGet_sweepApply_notMem rnow sendOk rest _ k hrest0
          _ = (ledgerGet l k).map (fun e => ⟨rnow k, e.encoded⟩) := h1
    · have hrest : rest.any (fun p => p.1 == k) = true := by
        simp [List.any_cons, hpk] at hm
        simpa using hm
      by_cases hsp : sendOk p.1 = true
      · have hkp : ¬ k = p.1 := fun hc => hpk hc.symm
        have h1 : ledgerGet (refreshEntry l p.1 (rnow p.1)) k = ledgerGet l k := by
          rw [ledgerGet_refreshEntry]
          simp [hkp]
        calc ledgerGet (sweepApply rnow sendOk l (p :: rest)) k
            = ledgerGet (sweepApply rnow sendOk (refreshEntry l p.1 (rnow p.1)) rest) k := by
              simp [sweepApply, hsp]
          _ = (ledgerGet (refreshEntry l p.1 (rnow p.1)) k).map
                (fun e => ⟨rnow k, e.encoded⟩) := ih _ hrest
          _ = (ledgerGet l k).map (fun e => ⟨rnow k, e.encoded⟩) := by rw [h1]
      · calc ledgerGet (sweepApply rnow sendOk l (p :: rest)) k
            = ledgerGet (sweepApply rnow sendOk l rest) k := by
              simp [sweepApply, hsp]
          _ = (ledgerGet l k).map (fun e => ⟨rnow k, e.encoded⟩) := ih l hrest

/-- Membership characterization of the collected retransmission set. -/
theorem mem_sweepCollect (now : Nat) (l : Ledger) (s : Nat) (d : List Nat) :
    (s, d) ∈ sweepCollect now l ↔
      ∃ e : Entry, (s, e) ∈ l ∧ RTO < now - e.sent_at ∧ d = e.encoded := by
  constructor
  · intro h
    obtain ⟨p, hp, hf⟩ := List.mem_filterMap.mp h
    by_cases hage : RTO < now - p.2.sent_at
    · rw [if_pos hage] at hf
      obtain ⟨h1, h2⟩ := Prod.mk.injEq .. ▸ (Option.some.injEq .. ▸ hf : (p.1, p.2.encoded) = (s, d))
      exact ⟨p.2, by rw [← h1]; exact hp, hage, h2.symm⟩
    · rw [if_neg hage] at hf
      cases hf
  · intro ⟨e, he, hage, hd⟩
    exact List.mem_filterMap.mpr ⟨(s, e), he, by simp [hage, hd]⟩

/-- With pairwise-distinct keys, ledger lookup agrees with raw membership. -/
theorem ledgerGet_eq_some_iff_mem (l : Ledger)
    (hn : (l.map Prod.fst).Nodup) (k : Nat) (e : Entry) :
    ledgerGet l k = some e ↔ (k, e) ∈ l := by
  induction l with
  | nil => simp [ledgerGet]
  | cons p t ih =>
    rw [List.map_cons, List.nodup_cons] at hn
    by_cases hp : p.1 = k
    · constructor
      · intro h
        rw [ledgerGet, if_pos hp] at h
        have : e = p.2 := (Option.some.injEq .. ▸ h).symm
        rw [this, ← hp]
        exact List.mem_cons_self _ _
      · intro h
        rcases List.mem_cons.mp h with h1 | h1
        · rw [ledgerGet, if_pos hp]
          rw [← h1]
        · exfalso
          apply hn.1
          rw [hp]
          exact List.mem_map.mpr ⟨(k, e), h1, rfl⟩
    · rw [ledgerGet, if_neg hp]
      constructor
      · intro h
        exact List.mem_cons.mpr (Or.inr ((ih hn.2).mp h))
      · intro h
        rcases List.mem_cons.mp h with h1 | h1
        · exfalso
          exact hp (by rw [← h1])
        · exact (ih hn.2).mpr h1

/-- C10: every byte-string returned by the decoy generator starts with the
three bytes 0x16 0x03 0x01, its bytes at indices 3 and 4 encode a big-endian
16-bit length equal to the drawn length L with 85 ≤ L < 300, and the
remainder after those five bytes is exactly the L entropy bytes (total
length 5 + L). The hypotheses record the ranges of the two random draws in
src/obfuscation.rs (rng.gen_range(85..300) and rng.fill of a vec of len
bytes). -/
theorem decoy_shape (len : Nat) (entropy : List Nat)
    (h85 : 85 ≤ len) (h300 : len < 300) (hlen : entropy.length = len) :
    (mimic_tls_client_hello len entropy).take 3 = [0x16, 0x03, 0x01] ∧
    256 * (mimic_tls_client_hello len entropy).getD 3 0 +
        (mimic_tls_client_hello len entropy).getD 4 0 = len ∧
    85 ≤ 256 * (mimic_tls_client_hello len entropy).getD 3 0 +
        (mimic_tls_client_hello len entropy).getD 4 0 ∧
    256 * (mimic_tls_client_hello len entropy).getD 3 0 +
        (mimic_tls_client_hello len entropy).getD 4 0 < 300 ∧
    (mimic_tls_client_hello len entropy).drop 5 = entropy ∧
    (mimic_tls_client_hello len entropy).length = 5 + len := by
  have h3 : (mimic_tls_client_hello len entropy).getD 3 0 = len / 256 % 256 := rfl
  have h4 : (mimic_tls_client_hello len entropy).getD 4 0 = len % 256 := rfl
  have hdiv : len / 256 < 256 := Nat.div_lt_of_lt_mul (by omega)
  have hL : 256 * (len / 256 % 256) + len % 256 = len := by
    rw [Nat.mod_eq_of_lt hdiv]
    exact Nat.div_add_mod len 256
  refine ⟨rfl, ?_, ?_, ?_, rfl, ?_⟩
  · rw [h3, h4, hL]
  · rw [h3, h4, hL]; exact h85
  · rw [h3, h4, hL]; exact h300
  · simp [mimic_tls_client_hello, beBytes2, hlen]
    omega

/-- Witness for decoy_shape at the length 100 and a 100-byte entropy run. -/
theorem decoy_shape_witness :
    (mimic_tls_client_hello 100 (List.replicate 100 7)).take 3 =
        [0x16, 0x03, 0x01] ∧
    256 * (mimic_tls_client_hello 100 (List.replicate 100 7)).getD 3 0 +
        (mimic_tls_client_hello 100 (List.replicate 100 7)).getD 4 0 = 100 ∧
    85 ≤ 256 * (mimic_tls_client_hello 100 (List.replicate 100 7)).getD 3 0 +
        (mimic_tls_client_hello 100 (List.replicate 100 7)).getD 4 0 ∧
    256 * (mimic_tls_client_hello 100 (List.replicate 100 7)).getD 3 0 +
        (mimic_tls_client_hello 100 (List.replicate 100 7)).getD 4 0 < 300 ∧
    (mimic_tls_client_hello 100 (List.replicate 100 7)).drop 5 =
        List.replicate 100 7 ∧
    (mimic_tls_client_hello 100 (List.replicate 100 7)).length = 5 + 100 :=
  decoy_shape 100 (List.replicate 100 7) (by decide) (by decide) (by simp)

/-- C7: decryption of a packet shorter than 12 bytes fails with the length
error and never consults the cipher primitive (the equation holds for every
primitive); on a packet of at least 12 bytes the leading 12 bytes are split
off as the nonce and the remainder is handed to the primitive for
verification and decryption, whose verdict decrypt forwards. Totality of the
embedding witnesses the absence of panics. -/
theorem decrypt_length_gate (g : SessionGuard) (data : List Nat) :
    (data.length < 12 →
      g.decrypt data = Except.error (CryptoError.lengthError data.length)) ∧
    (12 ≤ data.length → ∀ m,
      g.prim.dec g.key (data.take 12) (data.drop 12) = Except.ok m →
      g.decrypt data = Except.ok m) ∧
    (12 ≤ data.length →
      g.prim.dec g.key (data.take 12) (data.drop 12) = Except.error () →
      g.decrypt data = Except.error CryptoError.decryptFailure) := by
  refine ⟨?_, ?_, ?_⟩
  · intro h
    simp [SessionGuard.decrypt, h]
  · intro h m hm
    simp [SessionGuard.decrypt, Nat.not_lt.mpr h, hm]
  · intro h hm
    simp [SessionGuard.decrypt, Nat.not_lt.mpr h, hm]

/-- Witness for decrypt_length_gate: a 1-byte packet yields the length error,
and a 12-byte packet under the identity primitive decrypts to the empty
remainder. -/
theorem decrypt_length_gate_witness :
    idGuard.decrypt [0] = Except.error (CryptoError.lengthError 1) ∧
    idGuard.decrypt (List.replicate 12 0) = Except.ok [] :=
  ⟨(decrypt_length_gate idGuard [0]).1 (by decide),
   (decrypt_length_gate idGuard (List.replicate 12 0)).2.1 (by decide) []
     rfl⟩

/-- C3: for every key, every primitive satisfying the AEAD contract of the
chacha20poly1305 crate, every nonce draw and every message, a packet
produced by seal opens back to the message: the 12-byte random nonce
prefixed by encrypt is exactly what decrypt splits off, and the primitive
inverts itself under the same key and nonce. -/
theorem seal_open_roundtrip (g : SessionGuard) (entropy : Nat → Nat)
    (m packet : List Nat)
    (h : g.encrypt entropy m = Except.ok packet) :
    g.decrypt packet = Except.ok m := by
  unfold SessionGuard.encrypt at h
  cases he : g.prim.enc g.key (genNonce entropy) m with
  | error e =>
    rw [he] at h
    cases h
  | ok ct =>
    rw [he] at h
    have hp : genNonce entropy ++ ct = packet := by
      cases h
      rfl
    have hlen : (genNonce entropy).length = 12 := by simp [genNonce]
    rw [← hp]
    unfold SessionGuard.decrypt
    have hge : ¬ (genNonce entropy ++ ct).length < 12 := by
      simp [hlen]
    rw [if_neg hge]
    have htake : (genNonce entropy ++ ct).take 12 = genNonce entropy := by
      rw [← hlen]
      exact List.take_left _ _
    have hdrop : (genNonce entropy ++ ct).drop 12 = ct := by
      rw [← hlen]
      exact List.drop_left _ _
    rw [htake, hdrop, g.prim.dec_enc _ _ _ _ he]

/-- Witness for seal_open_roundtrip under the identity primitive, the
all-zero nonce draw and the message 1 2 3. -/
theorem seal_open_roundtrip_witness :
    idGuard.decrypt (List.replicate 12 0 ++ [1, 2, 3]) = Except.ok [1, 2, 3] := by
  have h : idGuard.encrypt (fun _ => 0) [1, 2, 3] =
      Except.ok (List.replicate 12 0 ++ [1, 2, 3]) := rfl
  exact seal_open_roundtrip idGuard (fun _ => 0) [1, 2, 3] _ h

/-- Dispatch never changes the peer cell, the sequence counter or the gate
flag; only the Ack arm touches the ledger. -/
theorem dispatchFrame_state_cases (g : SessionGuard)
    (dcmp : List Nat → Except Unit (List Nat)) (st : DPState) (f : WireFrame)
    (src : Nat) :
    (dispatchFrame g dcmp st f src).state = st ∨
    (dispatchFrame g dcmp st f src).state =
      {st with ledger := eraseKey st.ledger f.header.ack_num} := by
  cases hft : f.header.frame_type with
  | Transport =>
    cases hdec : g.decrypt f.payload with
    | error e => left; simp [dispatchFrame, hft, hdec]
    | ok plain =>
      cases hdc : dcmp plain with
      | error e => left; simp [dispatchFrame, hft, hdec, hdc]
      | ok d => left; simp [dispatchFrame, hft, hdec, hdc]
  | Ack => right; simp [dispatchFrame, hft]
  | Heartbeat => left; simp [dispatchFrame, hft]
  | Handshake => left; simp [dispatchFrame, hft]

/-- C5 (theorem): whenever a received datagram wire-decodes to a Transport
frame with sequence s, the RX step hands the socket exactly one datagram:
the serialized Ack frame with header (seq 0, ack_num s, kind Ack) and empty
payload, addressed to the source. The equation holds for every session
context and every decompressor, in particular when AEAD open of the payload
subsequently fails, which captures that the Ack is emitted before and
independently of the open; the source ignores the send result of the Ack. -/
theorem transport_ack_emitted (g : SessionGuard)
    (dcmp : List Nat → Except Unit (List Nat)) (st : DPState)
    (buf : List Nat) (src : Nat) (f : WireFrame)
    (hd : deserializeFrame buf = some f)
    (ht : f.header.frame_type = FrameType.Transport) :
    (rxStep g dcmp st buf src).sends =
      [(serializeFrame (WireFrame.new_ack 0 f.header.seq), src)] ∧
    WireFrame.new_ack 0 f.header.seq =
      ⟨⟨0, f.header.seq, FrameType.Ack⟩, []⟩ := by
  refine ⟨?_, rfl⟩
  cases hdec : g.decrypt f.payload with
  | error e => simp [rxStep, dispatchFrame, hd, ht, hdec]
  | ok plain =>
    cases hdc : dcmp plain with
    | error e => simp [rxStep, dispatchFrame, hd, ht, hdec, hdc]
    | ok d => simp [rxStep, dispatchFrame, hd, ht, hdec, hdc]

/-- Witness for transport_ack_emitted on the serialization of a concrete
Transport frame with sequence 7, received from address 5. -/
theorem transport_ack_emitted_witness :
    (rxStep idGuard idTransform ⟨[], none, 1, false⟩
        (serializeFrame ⟨⟨7, 0, FrameType.Transport⟩, [1, 2, 3]⟩) 5).sends =
      [(serializeFrame (WireFrame.new_ack 0 7), 5)] ∧
    WireFrame.new_ack 0 7 = ⟨⟨0, 7, FrameType.Ack⟩, []⟩ :=
  transport_ack_emitted idGuard idTransform ⟨[], none, 1, false⟩
    (serializeFrame ⟨⟨7, 0, FrameType.Transport⟩, [1, 2, 3]⟩) 5
    ⟨⟨7, 0, FrameType.Transport⟩, [1, 2, 3]⟩ (by decide) rfl

/-- C6 (theorem): dispatching a received Ack frame with acknowledgment
number a removes exactly the ledger entry keyed a, leaves every other
ledger entry, the peer cell, the sequence counter and the gate flag
unchanged, emits nothing on the socket or the tap, and when no entry keyed
a exists the ledger is left entirely unchanged (duplicate or late Ack is a
no-op, no error raised; totality of the embedding witnesses the absence of
panics). -/
theorem ack_dispatch_effect (g : SessionGuard)
    (dcmp : List Nat → Except Unit (List Nat)) (st : DPState) (f : WireFrame)
    (src : Nat) (hf : f.header.frame_type = FrameType.Ack) :
    ledgerGet (dispatchFrame g dcmp st f src).state.ledger f.header.ack_num
        = none ∧
    (∀ k, k ≠ f.header.ack_num →
      ledgerGet (dispatchFrame g dcmp st f src).state.ledger k =
        ledgerGet st.ledger k) ∧
    (ledgerGet st.ledger f.header.ack_num = none →
      (dispatchFrame g dcmp st f src).state.ledger = st.ledger) ∧
    (dispatchFrame g dcmp st f src).state.peer = st.peer ∧
    (dispatchFrame g dcmp st f src).state.tx_seq = st.tx_seq ∧
    (dispatchFrame g dcmp st f src).state.txGate = st.txGate ∧
    (dispatchFrame g dcmp st f src).sends = [] ∧
    (dispatchFrame g dcmp st f src).tapWrites = [] := by
  have hD : dispatchFrame g dcmp st f src =
      ⟨{st with ledger := eraseKey st.ledger f.header.ack_num}, [], []⟩ := by
    unfold dispatchFrame
    rw [hf]
  rw [hD]
  exact ⟨ledgerGet_eraseKey_self _ _,
    fun k hk => ledgerGet_eraseKey_ne _ _ _ hk,
    fun hnone => eraseKey_of_get_none _ _ hnone,
    rfl, rfl, rfl, rfl, rfl⟩

/-- Witness for ack_dispatch_effect: an Ack for key 3 on a two-entry ledger
removes key 3, keeps key 5, and emits nothing. -/
theorem ack_dispatch_effect_witness :
    ledgerGet (dispatchFrame idGuard idTransform
        ⟨[(3, ⟨0, [1]⟩), (5, ⟨0, [2]⟩)], some 9, 1, false⟩
        (WireFrame.new_ack 0 3) 9).state.ledger 3 = none ∧
    ledgerGet (dispatchFrame idGuard idTransform
        ⟨[(3, ⟨0, [1]⟩), (5, ⟨0, [2]⟩)], some 9, 1, false⟩
        (WireFrame.new_ack 0 3) 9).state.ledger 5 = some ⟨0, [2]⟩ ∧
    (dispatchFrame idGuard idTransform
        ⟨[(3, ⟨0, [1]⟩), (5, ⟨0, [2]⟩)], some 9, 1, false⟩
        (WireFrame.new_ack 0 3) 9).sends = [] ∧
    (dispatchFrame idGuard idTransform
        ⟨[(3, ⟨0, [1]⟩), (5, ⟨0, [2]⟩)], some 9, 1, false⟩
        (WireFrame.new_ack 0 3) 9).tapWrites = [] := by
  refine ⟨(ack_dispatch_effect idGuard idTransform _ _ 9 rfl).1, ?_, ?_, ?_⟩
  · rw [(ack_dispatch_effect idGuard idTransform
      ⟨[(3, ⟨0, [1]⟩), (5, ⟨0, [2]⟩)], some 9, 1, false⟩
      (WireFrame.new_ack 0 3) 9 rfl).2.1 5 (by decide)]
    decide
  · exact (ack_dispatch_effect idGuard idTransform _ _ 9 rfl).2.2.2.2.2.2.1
  · exact (ack_dispatch_effect idGuard idTransform _ _ 9 rfl).2.2.2.2.2.2.2

/-- C9 (theorem): RX processing of an arbitrary inbound datagram is a total
function of the model (no panic by construction), and every failure path is
a silent drop with zero tap writes: a datagram failing wire decode, a
decoded frame whose payload fails AEAD open, and a decrypted payload failing
decompression all produce an empty tap-write list. The decompressor, absent
from src (src/compression.rs), is modelled from the spec as an opaque
fallible transform and quantified over. -/
theorem rx_silent_drop (g : SessionGuard)
    (dcmp : List Nat → Except Unit (List Nat)) (st : DPState)
    (buf : List Nat) (src : Nat) :
    (deserializeFrame buf = none →
      (rxStep g dcmp st buf src).tapWrites = []) ∧
    (∀ f e, deserializeFrame buf = some f →
      g.decrypt f.payload = Except.error e →
      (rxStep g dcmp st buf src).tapWrites = []) ∧
    (∀ f plain, deserializeFrame buf = some f →
      g.decrypt f.payload = Except.ok plain → dcmp plain = Except.error () →
      (rxStep g dcmp st buf src).tapWrites = []) := by
  refine ⟨?_, ?_, ?_⟩
  · intro hd
    simp [rxStep, hd]
  · intro f e hd hdec
    cases hft : f.header.frame_type with
    | Transport => simp [rxStep, dispatchFrame, hd, hft, hdec]
    | Ack => simp [rxStep, dispatchFrame, hd, hft]
    | Heartbeat => simp [rxStep, dispatchFrame, hd, hft]
    | Handshake => simp [rxStep, dispatchFrame, hd, hft]
  · intro f plain hd hdec hdc
    cases hft : f.header.frame_type with
    | Transport => simp [rxStep, dispatchFrame, hd, hft, hdec, hdc]
    | Ack => simp [rxStep, dispatchFrame, hd, hft]
    | Heartbeat => simp [rxStep, dispatchFrame, hd, hft]
    | Handshake => simp [rxStep, dispatchFrame, hd, hft]

/-- Witness for rx_silent_drop: the empty datagram fails wire decode and
produces zero tap writes. -/
theorem rx_silent_drop_witness :
    (rxStep idGuard idTransform ⟨[], none, 1, false⟩ [] 4).tapWrites = [] :=
  (rx_silent_drop idGuard idTransform ⟨[], none, 1, false⟩ [] 4).1 rfl

/-- C1 (counterexample): a state whose active peer is address 1 receives the
empty datagram from address 2; the datagram fails wire decode, yet the peer
cell ends up holding address 2. This refutes the claim that a datagram
failing wire decode or AEAD open never changes the active peer: the source
roams the peer cell before any decode or verification. -/
theorem eager_roam_counterexample :
    deserializeFrame ([] : List Nat) = none ∧
    (rxStep idGuard idTransform ⟨[], some 1, 1, false⟩ [] 2).state.peer
      = some 2 :=
  ⟨rfl, rfl⟩

/-- C1 (amended theorem): the RX activity roams eagerly. On every received
datagram, before wire decode and before any AEAD verification, the active
peer cell is overwritten with the source address of the datagram, whatever
its prior value and whatever the fate of the datagram; dispatch of the
decoded frame never touches the peer cell again. -/
theorem eager_roam (g : SessionGuard)
    (dcmp : List Nat → Except Unit (List Nat)) (st : DPState)
    (buf : List Nat) (src : Nat) :
    (rxStep g dcmp st buf src).state.peer = some src := by
  have hst1 : (if st.peer = some src then st
      else {st with peer := some src}).peer = some src := by
    by_cases h : st.peer = some src
    · simp [h]
    · simp [h]
  unfold rxStep
  cases hd : deserializeFrame buf with
  | none => simpa using hst1
  | some f =>
    rcases dispatchFrame_state_cases g dcmp
        (if st.peer = some src then st else {st with peer := some src})
        f src with h | h
    · simpa [h] using hst1
    · simpa [h] using hst1

/-- C2 (counterexample): a TX iteration in which the AEAD seal fails does
not drop the frame and continue; the source unwraps the Result of encrypt,
so the iteration panics. Concretely, under the failing primitive with the
peer set and a one-byte tap packet, the outcome is the panic outcome, not a
continue outcome. -/
theorem seal_failure_panics_counterexample :
    txIteration failGuard idTransform (fun _ => 0) 0
      ⟨[], some 9, 1, false⟩ (TapRead.packet [1]) = TxOutcome.panic :=
  rfl

/-- C2 (amended theorem): in every TX iteration in which the AEAD seal of
the compressed payload fails, the TX activity panics (cipher_enc.encrypt is
unwrapped); it neither drops the frame and continues nor terminates
cleanly. -/
theorem seal_failure_panics (g : SessionGuard)
    (compress : List Nat → Except Unit (List Nat)) (entropy : Nat → Nat)
    (now : Nat) (st : DPState) (p : List Nat) (addr : Nat)
    (err : CryptoError) (hpeer : st.peer = some addr)
    (henc : g.encrypt entropy (txProcessed compress p) = Except.error err) :
    txIteration g compress entropy now st (TapRead.packet p)
      = TxOutcome.panic := by
  simp [txIteration, hpeer, henc]

/-- Witness for seal_failure_panics under the failing primitive at a
different concrete state and packet. -/
theorem seal_failure_panics_witness :
    txIteration failGuard idTransform (fun _ => 1) 5
      ⟨[(2, ⟨0, [3]⟩)], some 4, 6, false⟩ (TapRead.packet [2, 3])
      = TxOutcome.panic :=
  seal_failure_panics failGuard idTransform (fun _ => 1) 5
    ⟨[(2, ⟨0, [3]⟩)], some 4, 6, false⟩ [2, 3] 4
    CryptoError.encryptFailure rfl rfl

/-- With a known peer, the resent list of a tick is exactly the collected
aged set. -/
theorem rtxSweep_snd (now : Nat) (rnow : Nat → Nat) (sendOk : Nat → Bool)
    (st : DPState) (a : Nat) (hpeer : st.peer = some a) :
    (rtxSweep now rnow sendOk st).2 = sweepCollect now st.ledger := by
  unfold rtxSweep
  by_cases hc : (sweepCollect now st.ledger).isEmpty
  · simp [hc]
    exact List.isEmpty_iff.mp hc
  · simp [hc, hpeer]

/-- With a known peer, the successor ledger of a tick is the sweep applied
to the collected aged set. -/
theorem rtxSweep_ledger (now : Nat) (rnow : Nat → Nat) (sendOk : Nat → Bool)
    (st : DPState) (a : Nat) (hpeer : st.peer = some a) :
    (rtxSweep now rnow sendOk st).1.ledger =
      sweepApply rnow sendOk st.ledger (sweepCollect now st.ledger) := by
  unfold rtxSweep
  by_cases hc : (sweepCollect now st.ledger).isEmpty
  · have hnil : sweepCollect now st.ledger = [] :=
      List.isEmpty_iff.mp hc
    simp [hc, hnil, sweepApply]
  · simp [hc, hpeer]

/-- C8 (theorem): on a retransmission tick with a known peer and distinct
ledger keys, exactly the entries strictly older than RTO = 200 ms are
resent; a successfully resent entry has its sent_at refreshed to the
post-send instant while keeping its bytes; an entry whose resend fails is
left unchanged so the next tick retries; an entry not yet past RTO is left
unchanged; and the sweep neither removes nor adds ledger entries. -/
theorem rtx_sweep_spec (now : Nat) (rnow : Nat → Nat) (sendOk : Nat → Bool)
    (st : DPState) (a : Nat) (hpeer : st.peer = some a)
    (hnd : (st.ledger.map Prod.fst).Nodup) :
    (∀ s d, (s, d) ∈ (rtxSweep now rnow sendOk st).2 ↔
       ∃ e : Entry, ledgerGet st.ledger s = some e ∧ RTO < now - e.sent_at ∧
         d = e.encoded) ∧
    (∀ s e, ledgerGet st.ledger s = some e → RTO < now - e.sent_at →
       sendOk s = true →
       ledgerGet (rtxSweep now rnow sendOk st).1.ledger s =
         some ⟨rnow s, e.encoded⟩) ∧
    (∀ s e, ledgerGet st.ledger s = some e → RTO < now - e.sent_at →
       sendOk s = false →
       ledgerGet (rtxSweep now rnow sendOk st).1.ledger s = some e) ∧
    (∀ s e, ledgerGet st.ledger s = some e → ¬ RTO < now - e.sent_at →
       ledgerGet (rtxSweep now rnow sendOk st).1.ledger s = some e) ∧
    (∀ s, ledgerGet (rtxSweep now rnow sendOk st).1.ledger s = none ↔
       ledgerGet st.ledger s = none) := by
  have hsnd := rtxSweep_snd now rnow sendOk st a hpeer
  have hled := rtxSweep_ledger now rnow sendOk st a hpeer
  refine ⟨?_, ?_, ?_, ?_, ?_⟩
  · intro s d
    rw [hsnd, mem_sweepCollect]
    constructor
    · rintro ⟨e, hm, hage, hd⟩
      exact ⟨e, (ledgerGet_eq_some_iff_mem st.ledger hnd s e).mpr hm, hage, hd⟩
    · rintro ⟨e, hg, hage, hd⟩
      exact ⟨e, (ledgerGet_eq_some_iff_mem st.ledger hnd s e).mp hg, hage, hd⟩
  · intro s e hg hage hok
    have hmemc : (s, e.encoded) ∈ sweepCollect now st.ledger :=
      (mem_sweepCollect now st.ledger s e.encoded).mpr
        ⟨e, (ledgerGet_eq_some_iff_mem st.ledger hnd s e).mp hg, hage, rfl⟩
    have hany : (sweepCollect now st.ledger).any (fun p => p.1 == s) = true :=
      List.any_eq_true.mpr ⟨(s, e.encoded), hmemc, by simp⟩
    rw [hled, ledgerGet_sweepApply_refreshed rnow sendOk _ _ s hok hany, hg]
    rfl
  · intro s e hg hage hnok
    rw [hled, ledgerGet_sweepApply_sendFail rnow sendOk _ _ s hnok, hg]
  · intro s e hg hnage
    have hany : (sweepCollect now st.ledger).any (fun p => p.1 == s) = false := by
      by_contra hc
      have hany2 : (sweepCollect now st.ledger).any (fun p => p.1 == s) = true := by
        revert hc
        cases (sweepCollect now st.ledger).any (fun p => p.1 == s) <;> simp
      obtain ⟨x, hx, hpx⟩ := List.any_eq_true.mp hany2
      have hx1 : x.1 = s := by simpa using hpx
      have hxmem : (s, x.2) ∈ sweepCollect now st.ledger := by
        rw [← hx1]
        exact hx
      obtain ⟨e2, hm2, hage2, hd2⟩ :=
        (mem_sweepCollect now st.ledger s x.2).mp hxmem
      have hg2 : ledgerGet st.ledger s = some e2 :=
        (ledgerGet_eq_some_iff_mem st.ledger hnd s e2).mpr hm2
      have he : e = e2 := Option.some.inj (hg.symm.trans hg2)
      rw [← he] at hage2
      exact hnage hage2
    rw [hled, ledgerGet_sweepApply_notMem rnow sendOk _ _ s hany, hg]
  · intro s
    rw [hled]
    by_cases hok : sendOk s = true
    · by_cases hany :
          (sweepCollect now st.ledger).any (fun p => p.1 == s) = true
      · rw [ledgerGet_sweepApply_refreshed rnow sendOk _ _ s hok hany]
        cases ledgerGet st.ledger s <;> simp
      · have hany0 :
            (sweepCollect now st.ledger).any (fun p => p.1 == s) = false := by
          revert hany
          cases (sweepCollect now st.ledger).any (fun p => p.1 == s) <;> simp
        rw [ledgerGet_sweepApply_notMem rnow sendOk _ _ s hany0]
    · have hok0 : sendOk s = false := by
        revert hok
        cases sendOk s <;> simp
      rw [ledgerGet_sweepApply_sendFail rnow sendOk _ _ s hok0]

/-- Witness for rtx_sweep_spec at the instant 300 on a ledger holding an
entry aged 199 ms (key 1) and one aged 201 ms (key 2) with all sends
succeeding: key 2 is resent and refreshed, key 1 is neither. -/
theorem rtx_sweep_spec_witness :
    ledgerGet (rtxSweep 300 (fun _ => 300) (fun _ => true)
        ⟨[(1, ⟨101, [7]⟩), (2, ⟨99, [9]⟩)], some 4, 3, false⟩).1.ledger 2 =
      some ⟨300, [9]⟩ ∧
    ledgerGet (rtxSweep 300 (fun _ => 300) (fun _ => true)
        ⟨[(1, ⟨101, [7]⟩), (2, ⟨99, [9]⟩)], some 4, 3, false⟩).1.ledger 1 =
      some ⟨101, [7]⟩ ∧
    (2, [9]) ∈ (rtxSweep 300 (fun _ => 300) (fun _ => true)
        ⟨[(1, ⟨101, [7]⟩), (2, ⟨99, [9]⟩)], some 4, 3, false⟩).2 ∧
    ¬ (1, [7]) ∈ (rtxSweep 300 (fun _ => 300) (fun _ => true)
        ⟨[(1, ⟨101, [7]⟩), (2, ⟨99, [9]⟩)], some 4, 3, false⟩).2 := by
  have hspec := rtx_sweep_spec 300 (fun _ => 300) (fun _ => true)
    ⟨[(1, ⟨101, [7]⟩), (2, ⟨99, [9]⟩)], some 4, 3, false⟩ 4 rfl (by decide)
  refine ⟨?_, ?_, ?_, ?_⟩
  · exact hspec.2.1 2 ⟨99, [9]⟩ (by decide) (by decide) rfl
  · exact hspec.2.2.2.1 1 ⟨101, [7]⟩ (by decide) (by decide)
  · exact (hspec.1 2 [9]).mpr ⟨⟨99, [9]⟩, by decide, by decide, rfl⟩
  · intro hmem
    obtain ⟨e, hg, hage, hd⟩ := (hspec.1 1 [7]).mp hmem
    have hval : ledgerGet [(1, (⟨101, [7]⟩ : Entry)), (2, ⟨99, [9]⟩)] 1 =
        some ⟨101, [7]⟩ := by decide
    have he : e = ⟨101, [7]⟩ := Option.some.inj (hg.symm.trans hval)
    rw [he] at hage
    exact absurd hage (by decide)

/-- A TX loop body that continues resets the gate flag and grows the ledger
by at most one entry (the insert of the fresh sequence number). -/
theorem txIteration_next_shape (g : SessionGuard)
    (compress : List Nat → Except Unit (List Nat)) (entropy : Nat → Nat)
    (now : Nat) (st : DPState) (tap : TapRead) (st2 : DPState)
    (sent : List (List Nat × Nat))
    (h : txIteration g compress entropy now st tap = TxOutcome.next st2 sent) :
    st2.txGate = false ∧ ledgerSize st2.ledger ≤ ledgerSize st.ledger + 1 := by
  cases tap with
  | eof => simp [txIteration] at h
  | ioErr => simp [txIteration] at h
  | packet p =>
    cases hp : st.peer with
    | none =>
      simp [txIteration, hp] at h
      rw [← h.1]
      exact ⟨rfl, Nat.le_succ _⟩
    | some addr =>
      cases he : g.encrypt entropy (txProcessed compress p) with
      | error err => simp [txIteration, hp, he] at h
      | ok sealed =>
        simp [txIteration, hp, he] at h
        rw [← h.1]
        refine ⟨rfl, ?_⟩
        simpa [ledgerInsert, ledgerSize] using
          Nat.succ_le_succ (length_eraseKey_le st.ledger st.tx_seq)

/-- A TX loop body that terminates leaves the state unchanged apart from
resetting the gate flag. -/
theorem txIteration_exit_shape (g : SessionGuard)
    (compress : List Nat → Except Unit (List Nat)) (entropy : Nat → Nat)
    (now : Nat) (st : DPState) (tap : TapRead) (st2 : DPState)
    (h : txIteration g compress entropy now st tap = TxOutcome.exit st2) :
    st2 = {st with txGate := false} := by
  cases tap with
  | eof =>
    simp [txIteration] at h
    exact h.symm
  | ioErr =>
    simp [txIteration] at h
    exact h.symm
  | packet p =>
    cases hp : st.peer with
    | none => simp [txIteration, hp] at h
    | some addr =>
      cases he : g.encrypt entropy (txProcessed compress p) with
      | error err => simp [txIteration, hp, he] at h
      | ok sealed => simp [txIteration, hp, he] at h

/-- RX processing preserves the gate flag and the sequence counter and never
grows the ledger. -/
theorem rxStep_preserves (g : SessionGuard)
    (dcmp : List Nat → Except Unit (List Nat)) (st : DPState)
    (buf : List Nat) (src : Nat) :
    (rxStep g dcmp st buf src).state.txGate = st.txGate ∧
    (rxStep g dcmp st buf src).state.tx_seq = st.tx_seq ∧
    ledgerSize (rxStep g dcmp st buf src).state.ledger ≤
      ledgerSize st.ledger := by
  by_cases hpe : st.peer = some src
  · cases hd : deserializeFrame buf with
    | none => simp [rxStep, hd, hpe]
    | some f =>
      have hr : rxStep g dcmp st buf src = dispatchFrame g dcmp st f src := by
        simp [rxStep, hd, hpe]
      rw [hr]
      rcases dispatchFrame_state_cases g dcmp st f src with h | h
      · rw [h]
        exact ⟨rfl, rfl, Nat.le_refl _⟩
      · rw [h]
        exact ⟨rfl, rfl, length_eraseKey_le _ _⟩
  · cases hd : deserializeFrame buf with
    | none => simp [rxStep, hd, hpe]
    | some f =>
      have hr : rxStep g dcmp st buf src =
          dispatchFrame g dcmp {st with peer := some src} f src := by
        simp [rxStep, hd, hpe]
      rw [hr]
      rcases dispatchFrame_state_cases g dcmp {st with peer := some src} f src
        with h | h
      · rw [h]
        exact ⟨rfl, rfl, Nat.le_refl _⟩
      · rw [h]
        exact ⟨rfl, rfl, length_eraseKey_le _ _⟩

/-- A retransmission tick preserves the peer, the counter, the gate flag and
the exact size of the ledger. -/
theorem rtxSweep_preserves (now : Nat) (rnow : Nat → Nat)
    (sendOk : Nat → Bool) (st : DPState) :
    (rtxSweep now rnow sendOk st).1.peer = st.peer ∧
    (rtxSweep now rnow sendOk st).1.tx_seq = st.tx_seq ∧
    (rtxSweep now rnow sendOk st).1.txGate = st.txGate ∧
    ledgerSize (rtxSweep now rnow sendOk st).1.ledger =
      ledgerSize st.ledger := by
  unfold rtxSweep
  by_cases hc : (sweepCollect now st.ledger).isEmpty
  · simp [hc]
  · cases hp : st.peer with
    | none => simp [hc, hp]
    | some a => simp [hc, hp, length_sweepApply]

/-- Strengthened window invariant: every reachable state has at most
WINDOW_SIZE ledger entries, and strictly fewer whenever the TX activity has
passed the window gate of the current iteration. -/
theorem ledger_window_inv (g : SessionGuard)
    (compress dcmp : List Nat → Except Unit (List Nat)) (peer0 : Option Nat)
    (st : DPState) (h : Reachable g compress dcmp peer0 st) :
    ledgerSize st.ledger ≤ WINDOW_SIZE ∧
      (st.txGate = true → ledgerSize st.ledger < WINDOW_SIZE) := by
  unfold Reachable at h
  induction h with
  | refl =>
    refine ⟨?_, ?_⟩
    · show ledgerSize ([] : Ledger) ≤ WINDOW_SIZE
      simp [ledgerSize, WINDOW_SIZE]
    · intro hc
      cases hc
  | tail hab hstep ih =>
    cases hstep with
    | gatePass hlt => exact ⟨ih.1, fun _ => hlt⟩
    | gateFull hge => exact ih
    | txBody _ entropy now tap sent hg hiter =>
      obtain ⟨hgate, hsize⟩ :=
        txIteration_next_shape g compress entropy now _ tap _ sent hiter
      have hlt := ih.2 hg
      refine ⟨Nat.le_trans hsize (Nat.succ_le_of_lt hlt), ?_⟩
      intro hc
      rw [hgate] at hc
      cases hc
    | txEnd _ entropy now tap hg hiter =>
      have h2 := txIteration_exit_shape g compress entropy now _ tap _ hiter
      rw [h2]
      exact ⟨ih.1, fun hc => by cases hc⟩
    | rx buf src =>
      obtain ⟨h1, h2, h3⟩ := rxStep_preserves g dcmp _ buf src
      refine ⟨Nat.le_trans h3 ih.1, fun hc => Nat.lt_of_le_of_lt h3 (ih.2 ?_)⟩
      rw [← h1]
      exact hc
    | rxErr => exact ih
    | rtx now rnow sendOk =>
      obtain ⟨h1, h2, h3, h4⟩ := rtxSweep_preserves now rnow sendOk _
      refine ⟨?_, ?_⟩
      · rw [h4]
        exact ih.1
      · intro hc
        rw [h4]
        exact ih.2 (by rw [← h3]; exact hc)

/-- C4: in every reachable state of the datapath, under any interleaving of
the TX loop, the RX loop and the retransmission task, the reliability ledger
holds at most WINDOW_SIZE = 50 entries; the window gate only lets the TX
body run after observing a ledger strictly below the bound, so the insert of
a fresh sequence number can never create a 51st entry. -/
theorem ledger_window_bound (g : SessionGuard)
    (compress dcmp : List Nat → Except Unit (List Nat)) (peer0 : Option Nat)
    (st : DPState) (h : Reachable g compress dcmp peer0 st) :
    ledgerSize st.ledger ≤ WINDOW_SIZE :=
  (ledger_window_inv g compress dcmp peer0 st h).1

/-- Witness for ledger_window_bound at the bring-up state with the initial
CLI peer 3. -/
theorem ledger_window_bound_witness :
    ledgerSize (initState (some 3)).ledger ≤ WINDOW_SIZE :=
  ledger_window_bound idGuard idTransform idTransform (some 3)
    (initState (some 3)) Relation.ReflTransGen.refl

end GhostTunnel
